import Mathlib

/-!
Verification development for the startup subsystem of a TTS bot
(source file: src/startup.rs).

Strings are embedded as lists of characters; Rust BTreeMap values are
embedded as association lists kept sorted by key under lexicographic
character order, which matches the byte order BTreeMap uses on its
string keys.  The FixedString wrapper of the source is modelled as a
plain string except where the source converts an unbounded String into
it: the translation-language codes pass through a truncating conversion
bounded by the 255-byte capacity of a FixedString with a u8 length,
modelled by trunc_into below; the voice-map keys are built from slices
of already-bounded FixedString record fields, where that conversion is
the identity.  Network calls are modelled as
explicit oracle functions passed to the embedded operations, and a Rust
panic (unwrap of a missing value, out-of-bounds indexing) is modelled as
the none / panicked case of the returned Option or outcome type.
-/

/-- Characters of a Rust string, in order. -/
abbrev Str := List Char

/-- Embedding of Rust str::split_once with the separator character: the
text before the first hyphen and the text after it, or none when the
string holds no hyphen. -/
def split_once : Str → Option (Str × Str)
  | [] => none
  | c :: rest =>
    if c = '-' then some ([], rest)
    else
      match split_once rest with
      | none => none
      | some (a, b) => some (c :: a, b)

/-- Embedding of name.splitn(3, hyphen).nth(2): the tail of the string
after its second hyphen, or none when the string has fewer than two
hyphens (fewer than three hyphen-delimited components). -/
def splitn3_nth2 (s : Str) : Option Str :=
  match split_once s with
  | none => none
  | some (_, rest) =>
    match split_once rest with
    | none => none
    | some (_, tail) => some tail

/-- Embedding of Rust str::split on the hyphen character: every
hyphen-delimited component, in order.  Used to state how many components
a voice name has. -/
def splitHyphen : Str → List Str
  | [] => [[]]
  | c :: rest =>
    if c = '-' then [] :: splitHyphen rest
    else
      match splitHyphen rest with
      | [] => [[c]]
      | s :: ss => (c :: s) :: ss

/-- Genders of the Google voice records (tts_core::structs::GoogleGender,
declared outside this repository; the spec lists MALE, FEMALE, NEUTRAL
and UNSPECIFIED). -/
inductive GoogleGender
  | male
  | female
  | neutral
  | unspecified
deriving DecidableEq

/-- Modelled from the spec: tts_core::structs::GoogleVoice is declared
outside this repository; per the spec a raw voice record carries a flat
name, an ordered sequence of language tags whose first element is
authoritative, and a gender. -/
structure GoogleVoice where
  name : Str
  language_codes : List Str
  ssml_gender : GoogleGender
deriving DecidableEq

/-- Lexicographic order on embedded strings by character code: the order
BTreeMap uses on its string keys. -/
def strLt : Str → Str → Bool
  | _, [] => false
  | [], _ :: _ => true
  | a :: as, b :: bs => if a < b then true else if b < a then false else strLt as bs

/-- Lookup in the association-list embedding of a BTreeMap. -/
def mapFind {β : Type} (k : Str) : List (Str × β) → Option β
  | [] => none
  | (k₁, v) :: rest => if k = k₁ then some v else mapFind k rest

/-- Insertion into the association-list embedding of a BTreeMap: the new
pair replaces an existing pair with the same key, otherwise it enters at
its sorted position.  Last write wins, as with BTreeMap insert. -/
def mapInsert {β : Type} (k : Str) (v : β) : List (Str × β) → List (Str × β)
  | [] => [(k, v)]
  | (k₁, v₁) :: rest =>
    if strLt k k₁ then (k, v) :: (k₁, v₁) :: rest
    else if k = k₁ then (k, v) :: rest
    else (k₁, v₁) :: mapInsert k v rest

/-- Nested map type of prepare_gcloud_voices: language tag to variant to
gender. -/
abbrev GMap := List (Str × List (Str × GoogleGender))

/-- The final_variant choice of lines 125 to 132 of src/startup.rs: if
the third name component splits on its first hyphen into exactly the
word Standard and a variant code, the variant code alone is kept
(legacy scheme), otherwise the whole component is kept (new scheme). -/
def pickVariant (type_and_variant : Str) : Str :=
  match split_once type_and_variant with
  | some (m, variant_code) =>
    if m = "Standard".toList then variant_code else type_and_variant
  | none => type_and_variant

/-- Normalisation of one raw voice name (the body of lines 122 to 132 of
src/startup.rs): take the tail after the second hyphen and pick the
final variant from it; none when the name has fewer than three
hyphen-delimited components. -/
def normVariant (name : Str) : Option Str :=
  (splitn3_nth2 name).map pickVariant

/-- One loop iteration of prepare_gcloud_voices: a record whose name
normalises is inserted under its first language code; a record whose
name has fewer than three components is skipped; a record with an empty
language_codes sequence makes the iteration panic (Rust indexes
language_codes at 0 without a guard), modelled as none. -/
def processVoice (cleaned_map : GMap) (gvoice : GoogleVoice) : Option GMap :=
  match normVariant gvoice.name with
  | none => some cleaned_map
  | some final_variant =>
    match gvoice.language_codes with
    | [] => none
    | language :: _ =>
      some (mapInsert language
        (mapInsert final_variant gvoice.ssml_gender
          ((mapFind language cleaned_map).getD []))
        cleaned_map)

/-- The for loop of prepare_gcloud_voices over the raw records, stopping
at the first panic. -/
def prepareFold : List GoogleVoice → GMap → Option GMap
  | [], m => some m
  | g :: rest, m =>
    match processVoice m g with
    | none => none
    | some m₁ => prepareFold rest m₁

/-- Embedding of prepare_gcloud_voices (lines 115 to 144 of
src/startup.rs): fold the records into an initially empty nested map;
the result is none exactly when the Rust function panics. -/
def prepare_gcloud_voices (raw_map : List GoogleVoice) : Option GMap :=
  prepareFold raw_map []

theorem strLt_irrefl (a : Str) : strLt a a = false := by
  induction a with
  | nil => rfl
  | cons c cs ih => simp [strLt, lt_irrefl, ih]

theorem strLt_ne {a b : Str} (h : strLt a b = true) : a ≠ b := by
  intro he
  subst he
  rw [strLt_irrefl] at h
  exact Bool.noConfusion h

theorem strLt_trans : ∀ (a b c : Str),
    strLt a b = true → strLt b c = true → strLt a c = true
  | _, _, [] => by intro _ h₂; simp [strLt] at h₂
  | [], [], _ :: _ => by intro h₁ _; simp [strLt] at h₁
  | [], _ :: _, _ :: _ => by intro _ _; simp [strLt]
  | _ :: _, [], _ :: _ => by intro h₁ _; simp [strLt] at h₁
  | a :: as, b :: bs, c :: cs => by
    intro h₁ h₂
    simp only [strLt] at h₁ h₂ ⊢
    by_cases hab : a < b
    · by_cases hbc : b < c
      · simp [lt_trans hab hbc]
      · by_cases hcb : c < b
        · simp [hbc, hcb] at h₂
        · have hbc2 : b = c := le_antisymm (not_lt.mp hcb) (not_lt.mp hbc)
          subst hbc2
          simp [hab]
    · by_cases hba : b < a
      · simp [hab, hba] at h₁
      · have hab2 : a = b := le_antisymm (not_lt.mp hba) (not_lt.mp hab)
        subst hab2
        rw [if_neg (lt_irrefl a), if_neg (lt_irrefl a)] at h₁
        by_cases hbc : a < c
        · simp [hbc]
        · by_cases hcb : c < a
          · simp [hbc, hcb] at h₂
          · have hbc2 : a = c := le_antisymm (not_lt.mp hcb) (not_lt.mp hbc)
            subst hbc2
            rw [if_neg (lt_irrefl a), if_neg (lt_irrefl a)] at h₂ ⊢
            exact strLt_trans as bs cs h₁ h₂

theorem strLt_total : ∀ (a b : Str), a = b ∨ strLt a b = true ∨ strLt b a = true
  | [], [] => Or.inl rfl
  | [], _ :: _ => Or.inr (Or.inl (by simp [strLt]))
  | _ :: _, [] => Or.inr (Or.inr (by simp [strLt]))
  | a :: as, b :: bs => by
    rcases lt_trichotomy a b with h | h | h
    · exact Or.inr (Or.inl (by simp [strLt, h]))
    · subst h
      rcases strLt_total as bs with h₁ | h₁ | h₁
      · exact Or.inl (by rw [h₁])
      · exact Or.inr (Or.inl (by simp [strLt, lt_irrefl, h₁]))
      · exact Or.inr (Or.inr (by simp [strLt, lt_irrefl, h₁]))
    · exact Or.inr (Or.inr (by simp [strLt, h]))

theorem mapFind_mapInsert {β : Type} (k k₁ : Str) (v : β) (m : List (Str × β)) :
    mapFind k (mapInsert k₁ v m) = if k = k₁ then some v else mapFind k m := by
  induction m with
  | nil => simp [mapInsert, mapFind]
  | cons p rest ih =>
    obtain ⟨k₂, v₂⟩ := p
    simp only [mapInsert]
    by_cases h1 : strLt k₁ k₂
    · simp only [if_pos h1, mapFind]
    · by_cases h2 : k₁ = k₂
      · subst h2
        simp only [if_neg h1, if_pos rfl, mapFind]
        by_cases h3 : k = k₁ <;> simp [h3]
      · simp only [if_neg h1, if_neg h2, mapFind, ih]
        by_cases h3 : k = k₂
        · have h4 : ¬k = k₁ := fun he => h2 (he.symm.trans h3)
          have h5 : ¬k₂ = k₁ := fun he => h2 he.symm
          simp [h3, h4, h5]
        · simp [h3]

theorem mem_mapInsert {β : Type} {p : Str × β} {k : Str} {v : β} :
    ∀ {m : List (Str × β)}, p ∈ mapInsert k v m → p = (k, v) ∨ p ∈ m := by
  intro m
  induction m with
  | nil => intro h; simpa [mapInsert] using h
  | cons q rest ih =>
    obtain ⟨k₂, v₂⟩ := q
    intro h
    simp only [mapInsert] at h
    by_cases h1 : strLt k k₂
    · rw [if_pos h1] at h
      rcases List.mem_cons.mp h with h | h
      · exact Or.inl h
      · exact Or.inr h
    · by_cases h2 : k = k₂
      · rw [if_neg h1, if_pos h2] at h
        rcases List.mem_cons.mp h with h | h
        · exact Or.inl h
        · exact Or.inr (List.mem_cons_of_mem _ h)
      · rw [if_neg h1, if_neg h2] at h
        rcases List.mem_cons.mp h with h | h
        · exact Or.inr (by simp [h])
        · rcases ih h with h3 | h3
          · exact Or.inl h3
          · exact Or.inr (List.mem_cons_of_mem _ h3)

/-- Sortedness of the association-list embedding, the invariant BTreeMap
maintains. -/
def SortedMap {β : Type} (m : List (Str × β)) : Prop :=
  m.Pairwise fun p q => strLt p.1 q.1 = true

theorem SortedMap_mapInsert {β : Type} {m : List (Str × β)} (k : Str) (v : β)
    (h : SortedMap m) : SortedMap (mapInsert k v m) := by
  induction m with
  | nil => simp [mapInsert, SortedMap]
  | cons p rest ih =>
    obtain ⟨k₂, v₂⟩ := p
    rw [SortedMap, List.pairwise_cons] at h
    obtain ⟨hfst, hrest⟩ := h
    simp only [mapInsert]
    by_cases h1 : strLt k k₂
    · rw [if_pos h1]
      refine List.Pairwise.cons ?_ (List.Pairwise.cons hfst hrest)
      intro q hq
      rcases List.mem_cons.mp hq with hq | hq
      · simp [hq, h1]
      · exact strLt_trans _ _ _ h1 (hfst q hq)
    · by_cases h2 : k = k₂
      · rw [if_neg h1, if_pos h2]
        subst h2
        exact List.Pairwise.cons hfst hrest
      · rw [if_neg h1, if_neg h2]
        refine List.Pairwise.cons ?_ (ih hrest)
        intro q hq
        rcases mem_mapInsert hq with he | hm
        · rcases strLt_total k k₂ with h3 | h3 | h3
          · exact absurd h3 h2
          · exact absurd h3 h1
          · simp [he, h3]
        · exact hfst q hm

theorem mapFind_mem {β : Type} {k : Str} {v : β} :
    ∀ {m : List (Str × β)}, mapFind k m = some v → (k, v) ∈ m := by
  intro m
  induction m with
  | nil => intro h; simp [mapFind] at h
  | cons p rest ih =>
    obtain ⟨k₂, v₂⟩ := p
    intro h
    simp only [mapFind] at h
    by_cases h1 : k = k₂
    · rw [if_pos h1] at h
      injection h with h
      simp [h1, h]
    · rw [if_neg h1] at h
      exact List.mem_cons_of_mem _ (ih h)

theorem split_once_eq : ∀ {s a b : Str}, split_once s = some (a, b) → s = a ++ '-' :: b := by
  intro s
  induction s with
  | nil => intro a b h; simp [split_once] at h
  | cons c rest ih =>
    intro a b h
    simp only [split_once] at h
    by_cases hc : c = '-'
    · rw [if_pos hc] at h
      injection h with hp
      injection hp with ha hb
      subst ha
      subst hb
      simp [hc]
    · rw [if_neg hc] at h
      cases h2 : split_once rest with
      | none => rw [h2] at h; cases h
      | some p =>
        obtain ⟨a₁, b₁⟩ := p
        rw [h2] at h
        injection h with hp
        injection hp with ha hb
        subst ha
        subst hb
        have h3 := ih h2
        rw [h3]
        rfl

theorem split_once_of_noHyphen {b : Str} :
    ∀ {a : Str}, (∀ c ∈ a, c ≠ '-') → split_once (a ++ '-' :: b) = some (a, b) := by
  intro a
  induction a with
  | nil => intro _; simp [split_once]
  | cons c rest ih =>
    intro ha
    have hc : c ≠ '-' := ha c (List.mem_cons_self c rest)
    have h2 := ih fun d hd => ha d (List.mem_cons_of_mem c hd)
    simp [split_once, if_neg hc, h2]

theorem splitHyphen_ne_nil (s : Str) : splitHyphen s ≠ [] := by
  cases s with
  | nil => simp [splitHyphen]
  | cons c rest =>
    simp only [splitHyphen]
    by_cases hc : c = '-'
    · simp [hc]
    · rw [if_neg hc]
      cases splitHyphen rest <;> simp

theorem splitHyphen_of_none {s : Str} (h : split_once s = none) : splitHyphen s = [s] := by
  induction s with
  | nil => rfl
  | cons c rest ih =>
    simp only [split_once] at h
    by_cases hc : c = '-'
    · rw [if_pos hc] at h; cases h
    · rw [if_neg hc] at h
      cases h2 : split_once rest with
      | none =>
        simp only [splitHyphen, if_neg hc, ih h2]
      | some p => rw [h2] at h; cases h

theorem splitHyphen_of_some :
    ∀ {s a b : Str}, split_once s = some (a, b) → splitHyphen s = a :: splitHyphen b := by
  intro s
  induction s with
  | nil => intro a b h; simp [split_once] at h
  | cons c rest ih =>
    intro a b h
    simp only [split_once] at h
    by_cases hc : c = '-'
    · rw [if_pos hc] at h
      injection h with hp
      injection hp with ha hb
      subst ha
      subst hb
      simp [hc, splitHyphen]
    · rw [if_neg hc] at h
      cases h2 : split_once rest with
      | none => rw [h2] at h; cases h
      | some p =>
        obtain ⟨a₁, b₁⟩ := p
        rw [h2] at h
        injection h with hp
        injection hp with ha hb
        subst ha
        subst hb
        simp only [splitHyphen, if_neg hc, ih h2]

theorem splitn3_nth2_none_iff (s : Str) :
    splitn3_nth2 s = none ↔ (splitHyphen s).length < 3 := by
  cases h1 : split_once s with
  | none => simp [splitn3_nth2, h1, splitHyphen_of_none h1]
  | some p =>
    obtain ⟨a, b⟩ := p
    cases h2 : split_once b with
    | none =>
      simp [splitn3_nth2, h1, h2, splitHyphen_of_some h1, splitHyphen_of_none h2]
    | some q =>
      obtain ⟨c, d⟩ := q
      have h3 : 0 < (splitHyphen d).length :=
        List.length_pos.mpr (splitHyphen_ne_nil d)
      simp only [splitn3_nth2, h1, h2, splitHyphen_of_some h1, splitHyphen_of_some h2,
        List.length_cons]
      constructor
      · intro h
        exact absurd h (by simp)
      · intro h
        exact absurd h (by omega)

theorem normVariant_none_iff (name : Str) :
    normVariant name = none ↔ splitn3_nth2 name = none := by
  cases h : splitn3_nth2 name <;> simp [normVariant, h]

/-- Invariant of the nested voice map: the outer map and every inner map
are sorted by key, as BTreeMap keeps them. -/
def WFMap (m : GMap) : Prop :=
  SortedMap m ∧ ∀ p ∈ m, SortedMap p.2

theorem WFMap_nil : WFMap [] :=
  ⟨List.Pairwise.nil, fun p hp => absurd hp (List.not_mem_nil p)⟩

theorem WFMap_processVoice {m m₁ : GMap} {g : GoogleVoice}
    (hwf : WFMap m) (h : processVoice m g = some m₁) : WFMap m₁ := by
  unfold processVoice at h
  cases hv : normVariant g.name with
  | none =>
    rw [hv] at h
    injection h with h
    subst h
    exact hwf
  | some fv =>
    rw [hv] at h
    cases hl : g.language_codes with
    | nil => rw [hl] at h; cases h
    | cons lang tags =>
      rw [hl] at h
      injection h with h
      subst h
      constructor
      · exact SortedMap_mapInsert _ _ hwf.1
      · intro p hp
        rcases mem_mapInsert hp with he | hm
        · rw [he]
          apply SortedMap_mapInsert
          cases hf : mapFind lang m with
          | none => simp [SortedMap]
          | some sub =>
            simp only [Option.getD_some]
            exact hwf.2 _ (mapFind_mem hf)
        · exact hwf.2 p hm

theorem WFMap_prepareFold : ∀ (l : List GoogleVoice) (m m₁ : GMap),
    WFMap m → prepareFold l m = some m₁ → WFMap m₁
  | [], m, m₁ => by
    intro hwf h
    injection h with h
    subst h
    exact hwf
  | g :: rest, m, m₁ => by
    intro hwf h
    simp only [prepareFold] at h
    cases hp : processVoice m g with
    | none => rw [hp] at h; cases h
    | some m₂ =>
      rw [hp] at h
      exact WFMap_prepareFold rest m₂ m₁ (WFMap_processVoice hwf hp) h

theorem prepareFold_append : ∀ (l₁ l₂ : List GoogleVoice) (m : GMap),
    prepareFold (l₁ ++ l₂) m =
      match prepareFold l₁ m with
      | none => none
      | some m₁ => prepareFold l₂ m₁
  | [], _, _ => rfl
  | g :: rest, l₂, m => by
    simp only [List.cons_append, prepareFold]
    cases processVoice m g with
    | none => rfl
    | some m₁ => exact prepareFold_append rest l₂ m₁

theorem prepareFold_skip {g : GoogleVoice} (hg : normVariant g.name = none) :
    ∀ (l₁ l₂ : List GoogleVoice) (m : GMap),
      prepareFold (l₁ ++ g :: l₂) m = prepareFold (l₁ ++ l₂) m
  | [], l₂, m => by simp only [List.nil_append, prepareFold, processVoice, hg]
  | a :: rest, l₂, m => by
    simp only [List.cons_append, prepareFold]
    cases processVoice m a with
    | none => rfl
    | some m₁ => exact prepareFold_skip hg rest l₂ m₁

theorem prepareFold_none_iff : ∀ (l : List GoogleVoice) (m : GMap),
    prepareFold l m = none ↔
      ∃ g ∈ l, (splitn3_nth2 g.name).isSome ∧ g.language_codes = []
  | [], m => by simp [prepareFold]
  | g :: rest, m => by
    simp only [prepareFold]
    cases hv : normVariant g.name with
    | none =>
      have hsome : ¬(splitn3_nth2 g.name).isSome = true := by
        rw [(normVariant_none_iff g.name).mp hv]
        simp
      simp only [processVoice, hv]
      rw [prepareFold_none_iff rest m]
      simp only [List.mem_cons]
      constructor
      · rintro ⟨g₁, hg₁, hp⟩
        exact ⟨g₁, Or.inr hg₁, hp⟩
      · rintro ⟨g₁, hg₁, hp⟩
        rcases hg₁ with he | hm
        · subst he
          exact absurd hp.1 hsome
        · exact ⟨g₁, hm, hp⟩
    | some fv =>
      cases hl : g.language_codes with
      | nil =>
        have hsome : (splitn3_nth2 g.name).isSome = true := by
          cases hs : splitn3_nth2 g.name with
          | none => rw [(normVariant_none_iff g.name).mpr hs] at hv; cases hv
          | some tv => simp
        simp only [processVoice, hv, hl]
        constructor
        · intro _
          exact ⟨g, List.mem_cons_self g rest, hsome, hl⟩
        · intro _
          trivial
      | cons lang tags =>
        simp only [processVoice, hv, hl]
        rw [prepareFold_none_iff rest _]
        simp only [List.mem_cons]
        constructor
        · rintro ⟨g₁, hg₁, hp⟩
          exact ⟨g₁, Or.inr hg₁, hp⟩
        · rintro ⟨g₁, hg₁, hp⟩
          rcases hg₁ with he | hm
          · subst he
            rw [hl] at hp
            cases hp.2
          · exact ⟨g₁, hm, hp⟩

/-- Request URL model: the scheme-and-host part is kept opaque; the
path and the ordered query pairs are what the source manipulates. -/
structure Url where
  base : Str
  path : Str
  query : List (Str × Str)
deriving DecidableEq

/-- Embedding of reqwest Url::set_path. -/
def set_path (u : Url) (p : Str) : Url := { u with path := p }

/-- Embedding of query_pairs_mut().append_pair: appends one key-value
pair after the existing query pairs. -/
def append_pair (u : Url) (k v : Str) : Url := { u with query := u.query ++ [(k, v)] }

/-- Error taxonomy of the startup subsystem. -/
inductive StartupError
  | malformedWebhookUrl
  | httpStatus (status : Nat)
  | decode
deriving DecidableEq

/-- One HTTP request as this subsystem issues it: a method, a URL and
the value of the Authorization header. -/
structure Request where
  method : Str
  url : Url
  authorization : Str
deriving DecidableEq

/-- Embedding of fetch_json (lines 35 to 49 of src/startup.rs): issue
one GET request carrying the given Authorization header value through
the HTTP oracle, surfacing its error or decoded body verbatim. -/
def fetch_json {α : Type} (http : Request → Except StartupError α)
    (url : Url) (auth_header : Str) : Except StartupError α :=
  http ⟨"GET".toList, url, auth_header⟩

/-- Modelled from the spec: tts_core::structs::TTSMode is declared
outside this repository; the spec describes it as a fixed enumeration of
supported synthesis engines, converted into a string for the query
parameter. -/
inductive TTSMode
  | gtts
  | espeak
  | gcloud
  | polly
deriving DecidableEq

/-- Modelled from the spec: the Into conversion of a TTSMode to its
string form, used as the value of the mode query parameter. -/
def ttsModeStr : TTSMode → Str
  | .gtts => "gTTS".toList
  | .espeak => "eSpeak".toList
  | .gcloud => "gCloud".toList
  | .polly => "Polly".toList

/-- Embedding of fetch_voices (lines 51 to 68 of src/startup.rs): set
the path to voices, append the mode and raw query pairs, and fetch with
the auth key, or the empty string when the key is absent. -/
def fetch_voices {α : Type} (http : Request → Except StartupError α)
    (tts_service : Url) (auth_key : Option Str) (mode : TTSMode) :
    Except StartupError α :=
  fetch_json http
    (append_pair
      (append_pair (set_path tts_service "voices".toList) "mode".toList (ttsModeStr mode))
      "raw".toList "true".toList)
    (auth_key.getD [])

/-- Embedding of str::make_ascii_lowercase on one character: ASCII
uppercase letters move to lowercase, every other character stays. -/
def asciiLowerChar (c : Char) : Char :=
  if 'A' ≤ c ∧ c ≤ 'Z' then Char.ofNat (c.toNat + 32) else c

/-- Embedding of String::make_ascii_lowercase. -/
def make_ascii_lowercase (s : Str) : Str := s.map asciiLowerChar

/-- UTF-8 byte length of one character, as Rust encodes strings. -/
def utf8CharLen (c : Char) : Nat :=
  if c.toNat < 0x80 then 1
  else if c.toNat < 0x800 then 2
  else if c.toNat < 0x10000 then 3
  else 4

/-- Longest prefix whose total UTF-8 byte length fits within the
budget: truncation at a character boundary. -/
def truncBytes : Nat → Str → Str
  | _, [] => []
  | budget, c :: rest =>
    if utf8CharLen c ≤ budget then c :: truncBytes (budget - utf8CharLen c) rest
    else []

/-- Embedding of the small_fixed_array TruncatingInto conversion
(trunc_into at line 82 of src/startup.rs) from a String into a
FixedString with a u8 length: the string is cut at the largest
character boundary within the 255-byte capacity. -/
def trunc_into (s : Str) : Str := truncBytes 255 s

/-- The pure ingestion step of fetch_translation_languages (lines 80 to
86 of src/startup.rs): lowercase each code in place, convert it into the
FixedString key with the truncating conversion, then collect the pairs
in order into a BTreeMap, a later pair overwriting an earlier one with
the same key. -/
def ingestLangs (raw_langs : List (Str × Str)) : List (Str × Str) :=
  (raw_langs.map fun p => (trunc_into (make_ascii_lowercase p.1), p.2)).foldl
    (fun m p => mapInsert p.1 p.2 m) []

/-- Embedding of fetch_translation_languages (lines 70 to 87 of
src/startup.rs): set the path to translation_languages, fetch the raw
pairs with the auth key or the empty string, and ingest them. -/
def fetch_translation_languages (http : Request → Except StartupError (List (Str × Str)))
    (tts_service : Url) (auth_key : Option Str) :
    Except StartupError (List (Str × Str)) :=
  match fetch_json http (set_path tts_service "translation_languages".toList)
      (auth_key.getD []) with
  | .error e => .error e
  | .ok raw_langs => .ok (ingestLangs raw_langs)

/-- Spec-side description of the retained display name: the name of the
last pair of the input whose code, lowercased and truncated to the
FixedString capacity, is the key, scanning the whole list in order. -/
def lastDisplayName (raw_langs : List (Str × Str)) (k : Str) : Option Str :=
  raw_langs.foldl
    (fun acc p => if trunc_into (make_ascii_lowercase p.1) = k then some p.2 else acc) none

/-- Resolved webhook handle (serenity::Webhook, opaque here beyond its
identity). -/
structure Webhook where
  id : Nat
deriving DecidableEq

/-- The three raw webhook URLs of the configuration. -/
structure WebhookConfigRaw where
  logs : Url
  errors : Url
  dm_logs : Url

/-- The three resolved webhook handles. -/
structure WebhookConfig where
  logs : Webhook
  errors : Webhook
  dm_logs : Webhook
deriving DecidableEq

/-- Embedding of the get_webhook closure (lines 16 to 19 of
src/startup.rs): parse the URL into a webhook id and token through the
parse oracle (serenity parse_webhook); try_unwrap turns a failed parse
into an error; a parsed id is resolved over the network through the
to_webhook oracle. -/
def get_webhook (parse : Url → Option (Nat × Str))
    (to_webhook : Nat → Except StartupError Webhook) (url : Url) :
    Except StartupError Webhook :=
  match parse url with
  | none => .error .malformedWebhookUrl
  | some (webhook_id, _) => to_webhook webhook_id

/-- Embedding of get_webhooks (lines 12 to 33 of src/startup.rs): the
try_join of the three resolutions fails when any branch fails and
otherwise aggregates the three handles into a WebhookConfig. -/
def get_webhooks (parse : Url → Option (Nat × Str))
    (to_webhook : Nat → Except StartupError Webhook)
    (webhooks_raw : WebhookConfigRaw) : Except StartupError WebhookConfig :=
  match get_webhook parse to_webhook webhooks_raw.logs,
      get_webhook parse to_webhook webhooks_raw.errors,
      get_webhook parse to_webhook webhooks_raw.dm_logs with
  | .ok logs, .ok errors, .ok dm_logs => .ok ⟨logs, errors, dm_logs⟩
  | .error e, _, _ => .error e
  | _, .error e, _ => .error e
  | _, _, .error e => .error e

/-- Message builder of serenity ExecuteWebhook, reduced to the content
the source sets. -/
structure ExecuteWebhook where
  content : Str
deriving DecidableEq

/-- A created chat message, reduced to its identifier. -/
structure Message where
  id : Nat
deriving DecidableEq

/-- Result of an operation that can also panic: a value, a returned
error value, or a Rust panic. -/
inductive Outcome (α : Type)
  | ok (a : α)
  | err (e : StartupError)
  | panicked
deriving DecidableEq

/-- Whether an outcome is a returned error value. -/
def Outcome.isErr {α : Type} : Outcome α → Bool
  | .err _ => true
  | _ => false

/-- The fixed startup message builder (line 150 of src/startup.rs). -/
def startup_builder : ExecuteWebhook := ⟨"**TTS Bot is starting up**".toList⟩

/-- Embedding of send_startup_message (lines 146 to 154 of
src/startup.rs): execute the logs webhook with wait-for-completion set
(the execute oracle stands for serenity Webhook::execute); an execution
error is returned; when no message comes back the source unwraps the
missing value and panics; otherwise the created message's id is
returned. -/
def send_startup_message
    (execute : Bool → ExecuteWebhook → Except StartupError (Option Message)) :
    Outcome Nat :=
  match execute true startup_builder with
  | .error e => .err e
  | .ok none => .panicked
  | .ok (some startup_message) => .ok startup_message.id

theorem standardHyphen_append (x : Str) :
    "Standard-".toList ++ x = "Standard".toList ++ '-' :: x := by
  have h : "Standard-".toList = "Standard".toList ++ ['-'] := by decide
  rw [h, List.append_assoc]
  rfl

theorem split_once_standard (x : Str) :
    split_once ("Standard-".toList ++ x) = some ("Standard".toList, x) := by
  rw [standardHyphen_append]
  exact split_once_of_noHyphen (by decide)

theorem SortedMap_nodup {β : Type} {m : List (Str × β)} (h : SortedMap m) :
    (m.map Prod.fst).Nodup := by
  have h2 : m.Pairwise fun p q => p.1 ≠ q.1 :=
    h.imp fun hlt => strLt_ne hlt
  exact List.pairwise_map.mpr h2

theorem pickVariant_standard (x : Str) :
    pickVariant ("Standard-".toList ++ x) = x := by
  unfold pickVariant
  rw [split_once_standard]
  show (if ("Standard".toList : Str) = "Standard".toList then x
      else "Standard-".toList ++ x) = x
  rw [if_pos rfl]

theorem pickVariant_keeps {tv : Str} (h : tv.take 9 ≠ "Standard-".toList) :
    pickVariant tv = tv := by
  unfold pickVariant
  cases hs : split_once tv with
  | none => rfl
  | some p =>
    obtain ⟨t, v⟩ := p
    have hne : t ≠ "Standard".toList := by
      intro he
      apply h
      have heq := split_once_eq hs
      rw [he] at heq
      rw [heq, ← standardHyphen_append]
      exact List.take_left' (by decide)
    show (if t = "Standard".toList then v else tv) = tv
    rw [if_neg hne]

/-- C1: a raw voice record whose name's third hyphen-delimited component
is the exact word Standard, a hyphen, and a variant is mapped by
prepare_gcloud_voices to the variant alone, the Standard- type part of
the component stripped. -/
theorem prepare_gcloud_voices_standard_strips
    (g : GoogleVoice) (x lang : Str) (tags : List Str)
    (h1 : splitn3_nth2 g.name = some ("Standard-".toList ++ x))
    (h2 : g.language_codes = lang :: tags) :
    normVariant g.name = some x ∧
      prepare_gcloud_voices [g] = some [(lang, [(x, g.ssml_gender)])] := by
  have hv : normVariant g.name = some x := by
    unfold normVariant
    rw [h1, Option.map_some', pickVariant_standard]
  refine ⟨hv, ?_⟩
  simp [prepare_gcloud_voices, prepareFold, processVoice, hv, h2, mapFind, mapInsert]

/-- Witness for C1 at the record en-US-Standard-A. -/
theorem prepare_gcloud_voices_standard_strips_witness :
    normVariant "en-US-Standard-A".toList = some "A".toList ∧
      prepare_gcloud_voices
          [⟨"en-US-Standard-A".toList, ["en-US".toList], GoogleGender.female⟩] =
        some [("en-US".toList, [("A".toList, GoogleGender.female)])] :=
  prepare_gcloud_voices_standard_strips
    ⟨"en-US-Standard-A".toList, ["en-US".toList], GoogleGender.female⟩
    "A".toList "en-US".toList [] (by decide) rfl

/-- C2: a raw voice record whose name has at least three
hyphen-delimited components and whose third component does not start
with Standard and a hyphen keeps the entire third component, type
included, as its variant. -/
theorem prepare_gcloud_voices_keeps_type
    (g : GoogleVoice) (tv lang : Str) (tags : List Str)
    (h1 : splitn3_nth2 g.name = some tv)
    (h2 : tv.take 9 ≠ "Standard-".toList)
    (h3 : g.language_codes = lang :: tags) :
    normVariant g.name = some tv ∧
      prepare_gcloud_voices [g] = some [(lang, [(tv, g.ssml_gender)])] := by
  have hv : normVariant g.name = some tv := by
    unfold normVariant
    rw [h1, Option.map_some', pickVariant_keeps h2]
  refine ⟨hv, ?_⟩
  simp [prepare_gcloud_voices, prepareFold, processVoice, hv, h3, mapFind, mapInsert]

/-- Witness for C2 at the record en-US-Wavenet-F. -/
theorem prepare_gcloud_voices_keeps_type_witness :
    normVariant "en-US-Wavenet-F".toList = some "Wavenet-F".toList ∧
      prepare_gcloud_voices
          [⟨"en-US-Wavenet-F".toList, ["en-US".toList], GoogleGender.female⟩] =
        some [("en-US".toList, [("Wavenet-F".toList, GoogleGender.female)])] :=
  prepare_gcloud_voices_keeps_type
    ⟨"en-US-Wavenet-F".toList, ["en-US".toList], GoogleGender.female⟩
    "Wavenet-F".toList "en-US".toList [] (by decide) (by decide) rfl

/-- C3: a record whose name splits into fewer than three
hyphen-delimited components is dropped silently: the output over any
list containing it equals the output over the list without it, with no
error and no panic introduced. -/
theorem prepare_gcloud_voices_skips_malformed
    (g : GoogleVoice) (l₁ l₂ : List GoogleVoice)
    (h : (splitHyphen g.name).length < 3) :
    prepare_gcloud_voices (l₁ ++ g :: l₂) = prepare_gcloud_voices (l₁ ++ l₂) := by
  have hg : normVariant g.name = none :=
    (normVariant_none_iff g.name).mpr ((splitn3_nth2_none_iff g.name).mpr h)
  exact prepareFold_skip hg l₁ l₂ []

/-- Witness for C3: a record named en-US, with an empty languageCodes
sequence even, is dropped and raises nothing. -/
theorem prepare_gcloud_voices_skips_malformed_witness :
    prepare_gcloud_voices
        [⟨"en-US-Standard-A".toList, ["en-US".toList], GoogleGender.female⟩,
         ⟨"en-US".toList, [], GoogleGender.male⟩] =
      prepare_gcloud_voices
        [⟨"en-US-Standard-A".toList, ["en-US".toList], GoogleGender.female⟩] :=
  prepare_gcloud_voices_skips_malformed
    ⟨"en-US".toList, [], GoogleGender.male⟩
    [⟨"en-US-Standard-A".toList, ["en-US".toList], GoogleGender.female⟩] []
    (by decide)

/-- C4: get_webhooks is all-or-nothing: a success is exactly the three
successful resolutions aggregated into a WebhookConfig, an error result
is the error of one of the three resolutions, and any failing resolution
makes the whole operation fail, so no partially populated WebhookConfig
is ever returned. -/
theorem get_webhooks_all_or_nothing
    (parse : Url → Option (Nat × Str))
    (to_webhook : Nat → Except StartupError Webhook) (raw : WebhookConfigRaw) :
    (∀ cfg, get_webhooks parse to_webhook raw = Except.ok cfg ↔
        get_webhook parse to_webhook raw.logs = Except.ok cfg.logs ∧
        get_webhook parse to_webhook raw.errors = Except.ok cfg.errors ∧
        get_webhook parse to_webhook raw.dm_logs = Except.ok cfg.dm_logs) ∧
    (∀ e, get_webhooks parse to_webhook raw = Except.error e →
        get_webhook parse to_webhook raw.logs = Except.error e ∨
        get_webhook parse to_webhook raw.errors = Except.error e ∨
        get_webhook parse to_webhook raw.dm_logs = Except.error e) ∧
    (∀ e, (get_webhook parse to_webhook raw.logs = Except.error e ∨
        get_webhook parse to_webhook raw.errors = Except.error e ∨
        get_webhook parse to_webhook raw.dm_logs = Except.error e) →
      ∃ e₁, get_webhooks parse to_webhook raw = Except.error e₁) := by
  refine ⟨?_, ?_, ?_⟩
  · intro cfg
    obtain ⟨c₁, c₂, c₃⟩ := cfg
    cases hr1 : get_webhook parse to_webhook raw.logs <;>
      cases hr2 : get_webhook parse to_webhook raw.errors <;>
        cases hr3 : get_webhook parse to_webhook raw.dm_logs <;>
          simp [get_webhooks, hr1, hr2, hr3]
  · intro e h
    cases hr1 : get_webhook parse to_webhook raw.logs <;>
      cases hr2 : get_webhook parse to_webhook raw.errors <;>
        cases hr3 : get_webhook parse to_webhook raw.dm_logs <;>
          simp_all [get_webhooks]
  · intro e h
    cases hr1 : get_webhook parse to_webhook raw.logs <;>
      cases hr2 : get_webhook parse to_webhook raw.errors <;>
        cases hr3 : get_webhook parse to_webhook raw.dm_logs <;>
          simp_all [get_webhooks]

/-- C5 counterexample: when the webhook execution succeeds but the
provider returns no created message, send_startup_message panics
(unwrap of the missing message) and so does not return an error
value. -/
theorem send_startup_message_no_error_value :
    send_startup_message (fun _ _ => Except.ok none) = Outcome.panicked ∧
      (send_startup_message (fun _ _ => Except.ok none)).isErr = false :=
  ⟨rfl, rfl⟩

/-- C5 amended: an execution error is surfaced to the caller; a
successful execution that returns no created message makes
send_startup_message panic (unwrap of the missing value) rather than
return an error value; a returned message yields the identifier of that
single created message. -/
theorem send_startup_message_behaviour
    (execute : Bool → ExecuteWebhook → Except StartupError (Option Message)) :
    (∀ e, execute true startup_builder = Except.error e →
        send_startup_message execute = Outcome.err e) ∧
    (execute true startup_builder = Except.ok none →
        send_startup_message execute = Outcome.panicked) ∧
    (∀ msg, execute true startup_builder = Except.ok (some msg) →
        send_startup_message execute = Outcome.ok msg.id) := by
  refine ⟨?_, ?_, ?_⟩
  · intro e h
    unfold send_startup_message
    rw [h]
  · intro h
    unfold send_startup_message
    rw [h]
  · intro msg h
    unfold send_startup_message
    rw [h]

theorem mapFind_foldl_insert {β : Type} (l : List (Str × β)) (k : Str) :
    ∀ m₀ : List (Str × β),
      mapFind k (l.foldl (fun m p => mapInsert p.1 p.2 m) m₀) =
        l.foldl (fun acc p => if p.1 = k then some p.2 else acc) (mapFind k m₀) := by
  induction l with
  | nil => intro m₀; rfl
  | cons p rest ih =>
    intro m₀
    simp only [List.foldl_cons]
    rw [ih]
    congr 1
    rw [mapFind_mapInsert]
    by_cases h : p.1 = k
    · rw [if_pos h, if_pos h.symm]
    · have h2 : ¬k = p.1 := fun he => h he.symm
      rw [if_neg h, if_neg h2]

set_option maxRecDepth 8192 in
/-- C6 counterexample: a 256-character code is stored under its
lowercased form truncated to the 255-byte FixedString capacity, not
under its full lowercased form, so two long codes sharing their first
255 bytes would collide. -/
theorem fetch_translation_languages_long_code_truncated :
    fetch_translation_languages
        (fun _ => Except.ok [(List.replicate 256 'A', "X".toList)])
        ⟨[], [], []⟩ none =
      Except.ok [(List.replicate 255 'a', "X".toList)] ∧
      List.replicate 255 'a' ≠ make_ascii_lowercase (List.replicate 256 'A') :=
  ⟨rfl, by decide⟩

/-- C6 amended: in a successful fetch_translation_languages result, the
lookup at any key equals the display name of the last fetched pair whose
code, lowercased and truncated to the 255-byte FixedString capacity,
equals that key: every pair is stored under the truncated lowercased
form of its code (the lowercased form itself for codes within the
capacity) and a later duplicate overwrites an earlier one. -/
theorem fetch_translation_languages_trunc_lowercase_last_wins
    (http : Request → Except StartupError (List (Str × Str)))
    (u : Url) (auth_key : Option Str) (raw_langs m : List (Str × Str)) (k : Str)
    (hresp : http ⟨"GET".toList, set_path u "translation_languages".toList,
        auth_key.getD []⟩ = Except.ok raw_langs)
    (h : fetch_translation_languages http u auth_key = Except.ok m) :
    mapFind k m = lastDisplayName raw_langs k := by
  have hok : fetch_translation_languages http u auth_key =
      Except.ok (ingestLangs raw_langs) := by
    unfold fetch_translation_languages fetch_json
    rw [hresp]
  rw [hok] at h
  injection h with h
  subst h
  unfold ingestLangs lastDisplayName
  rw [mapFind_foldl_insert, List.foldl_map]
  rfl

/-- Witness for C6 at the spec's EN / en example. -/
theorem fetch_translation_languages_trunc_lowercase_last_wins_witness :
    mapFind "en".toList [("en".toList, "English (dup)".toList)] =
      lastDisplayName
        [("EN".toList, "English".toList), ("en".toList, "English (dup)".toList)]
        "en".toList :=
  fetch_translation_languages_trunc_lowercase_last_wins
    (fun _ => Except.ok
      [("EN".toList, "English".toList), ("en".toList, "English (dup)".toList)])
    ⟨[], [], []⟩ none
    [("EN".toList, "English".toList), ("en".toList, "English (dup)".toList)]
    [("en".toList, "English (dup)".toList)] "en".toList rfl rfl

/-- C7: in a successful prepare_gcloud_voices result each language
appears at most once and, within a language, each variant identifier
appears at most once; appending a further record that normalises to a
(language, variant) pair makes its gender the one retained for that
pair, so the later record wins. -/
theorem prepare_gcloud_voices_last_write_wins
    (l : List GoogleVoice) (m : GMap)
    (h : prepare_gcloud_voices l = some m) :
    ((m.map Prod.fst).Nodup ∧ ∀ p ∈ m, (p.2.map Prod.fst).Nodup) ∧
    ∀ (g : GoogleVoice) (v lang : Str) (tags : List Str) (m₂ : GMap),
      normVariant g.name = some v → g.language_codes = lang :: tags →
      prepare_gcloud_voices (l ++ [g]) = some m₂ →
      ∃ sub, mapFind lang m₂ = some sub ∧ mapFind v sub = some g.ssml_gender := by
  have hwf : WFMap m := WFMap_prepareFold l [] m WFMap_nil h
  constructor
  · exact ⟨SortedMap_nodup hwf.1, fun p hp => SortedMap_nodup (hwf.2 p hp)⟩
  · intro g v lang tags m₂ hv hl h₂
    unfold prepare_gcloud_voices at h h₂
    rw [prepareFold_append, h] at h₂
    simp only [prepareFold, processVoice, hv, hl] at h₂
    injection h₂ with h₂
    subst h₂
    refine ⟨mapInsert v g.ssml_gender ((mapFind lang m).getD []), ?_, ?_⟩
    · rw [mapFind_mapInsert, if_pos rfl]
    · rw [mapFind_mapInsert, if_pos rfl]

/-- Witness for C7: a second en-US-Standard-A record with a different
gender overwrites the first one's gender. -/
theorem prepare_gcloud_voices_last_write_wins_witness :
    ∃ sub,
      mapFind "en-US".toList
          [("en-US".toList, [("A".toList, GoogleGender.female)])] = some sub ∧
        mapFind "A".toList sub = some GoogleGender.female :=
  (prepare_gcloud_voices_last_write_wins
      [⟨"en-US-Standard-A".toList, ["en-US".toList], GoogleGender.male⟩]
      [("en-US".toList, [("A".toList, GoogleGender.male)])] (by decide)).2
    ⟨"en-US-Standard-A".toList, ["en-US".toList], GoogleGender.female⟩
    "A".toList "en-US".toList []
    [("en-US".toList, [("A".toList, GoogleGender.female)])]
    (by decide) rfl (by decide)

/-- C8: on the two-record example list, prepare_gcloud_voices returns
exactly the mapping from en-US to A and Wavenet-F, both female, keyed by
the first element of languageCodes. -/
theorem prepare_gcloud_voices_example :
    prepare_gcloud_voices
        [⟨"en-US-Standard-A".toList, ["en-US".toList], GoogleGender.female⟩,
         ⟨"en-US-Wavenet-F".toList, ["en-US".toList], GoogleGender.female⟩] =
      some [("en-US".toList,
        [("A".toList, GoogleGender.female),
         ("Wavenet-F".toList, GoogleGender.female)])] := by
  decide

/-- C9: fetch_voices issues exactly one GET against the base URL with
its path set to voices, the query pairs mode and raw=true appended after
the base URL's query pairs, and the Authorization header carrying the
auth key, or the empty string when the key is absent. -/
theorem fetch_voices_issues_request (α : Type) (http : Request → Except StartupError α)
    (base : Url) (auth_key : Option Str) (mode : TTSMode) :
    fetch_voices http base auth_key mode =
      http ⟨"GET".toList,
        ⟨base.base, "voices".toList,
          base.query ++ [("mode".toList, ttsModeStr mode), ("raw".toList, "true".toList)]⟩,
        auth_key.getD []⟩ := by
  obtain ⟨b, p, q⟩ := base
  simp [fetch_voices, fetch_json, set_path, append_pair, List.append_assoc]

/-- C10: prepare_gcloud_voices panics (out-of-bounds index into
languageCodes) exactly when the input contains a record whose name has
at least three hyphen-delimited components but whose languageCodes
sequence is empty; it is total whenever no such record occurs. -/
theorem prepare_gcloud_voices_panics_iff (l : List GoogleVoice) :
    prepare_gcloud_voices l = none ↔
      ∃ g ∈ l, (splitn3_nth2 g.name).isSome ∧ g.language_codes = [] :=
  prepareFold_none_iff l []
